import Mathlib

/-!
Verification of the ODD data-processing pipeline
(`notebooks/ODD/data_processing_notebook_ODD.ipynb`).

Strings are modelled as `List Char`.  The Python string operations used by
the notebook (`split` on a literal separator, `replace`, whitespace `split`,
`' '.join`, `set`, `dict.get`) are embedded below with Python's semantics:
`replace` is a single left-to-right pass over the string replacing
non-overlapping occurrences, and `split` cuts at the leftmost occurrence
first.  The recursive scanners take an explicit fuel argument (always called
with fuel = length of the scanned list) so that they are structurally
recursive and evaluate by kernel reduction.
-/

/-- `begins pat s` is true when `pat` is an initial segment of `s`
(Python's `s.startswith(pat)`). -/
def begins : List Char → List Char → Bool
  | [], _ => true
  | _ :: _, [] => false
  | a :: as, b :: bs => a == b && begins as bs

/-- `hasOcc tok s` is true when `tok` occurs as a contiguous substring of `s`
(Python's `tok in s`). -/
def hasOcc (tok : List Char) : List Char → Bool
  | [] => begins tok []
  | c :: rest => begins tok (c :: rest) || hasOcc tok rest

/-- Fuelled scanner for Python's `str.replace(old, new)` with non-empty
`old`: one left-to-right pass, replacing non-overlapping occurrences and
resuming right after each replacement. -/
def replGo (old new : List Char) : Nat → List Char → List Char
  | _, [] => []
  | 0, s => s
  | fuel + 1, c :: rest =>
    if begins old (c :: rest) then
      new ++ replGo old new fuel (rest.drop (old.length - 1))
    else
      c :: replGo old new fuel rest

/-- Python's `s.replace(old, new)` for non-empty `old`. -/
def replAll (old new s : List Char) : List Char :=
  replGo old new s.length s

/-- Fuelled scanner for Python's `s.split(sep)` with non-empty `sep`:
cut at each non-overlapping occurrence, leftmost first; `"".split(sep)`
is `[""]`. -/
def pySplitGo (sep : List Char) : Nat → List Char → List (List Char)
  | _, [] => [[]]
  | 0, s => [s]
  | fuel + 1, c :: rest =>
    if begins sep (c :: rest) then
      [] :: pySplitGo sep fuel (rest.drop (sep.length - 1))
    else
      match pySplitGo sep fuel rest with
      | [] => [[c]]
      | p :: ps => (c :: p) :: ps

/-- Python's `s.split(sep)` for non-empty `sep`. -/
def pySplit (sep s : List Char) : List (List Char) :=
  pySplitGo sep s.length s

/-- The part of `s` before the first occurrence of `sep` (all of `s` when
`sep` does not occur).  This is the spec's wording for `s.split(sep)[0]`. -/
def takeBefore (sep : List Char) : List Char → List Char
  | [] => []
  | c :: rest => if begins sep (c :: rest) then [] else c :: takeBefore sep rest

/-- The delimiter `'_-_'` used by `clean_party_name`. -/
def delim : List Char := ['_', '-', '_']

/-- The fixed organizational suffix `' O.D.D.'` removed by
`clean_party_name`. -/
def oddTok : List Char := [' ', 'O', '.', 'D', '.', 'D', '.']

/-- `clean_party_name` from the notebook:
`party = value.split('_-_')[0]`, `party = party.replace('_', ' ')`,
`return party.replace(' O.D.D.', '')`. -/
def clean_party_name (value : List Char) : List Char :=
  let party := (pySplit delim value).headD []
  let party := replAll ['_'] [' '] party
  replAll oddTok [] party

/-- The character substitution performed by `replace('_', ' ')`, as the spec
words it: every underscore becomes a space, all else is unchanged. -/
def underscoreToSpace (c : Char) : Char :=
  if c = '_' then ' ' else c

/-- Party-name normalization as the spec words it: keep the portion before
the first `'_-_'` (the whole string when absent), turn every underscore into
a space, then remove the occurrences of `' O.D.D.'`. -/
def specNormalize (s : List Char) : List Char :=
  replAll oddTok [] ((takeBefore delim s).map underscoreToSpace)

/-- Python's `str.isspace` test for the whitespace characters relevant to
`str.split()` (ASCII whitespace). -/
def pyIsSpace (c : Char) : Bool :=
  c == ' ' || c == '\t' || c == '\n' || c == '\x0d' || c == '\x0b' || c == '\x0c'

/-- Accumulating scanner for Python's `s.split()` (no separator): split on
runs of whitespace and drop empty pieces. -/
def splitWsAux : List Char → List Char → List (List Char)
  | acc, [] => if acc.isEmpty then [] else [acc.reverse]
  | acc, c :: rest =>
    if pyIsSpace c then
      if acc.isEmpty then splitWsAux [] rest
      else acc.reverse :: splitWsAux [] rest
    else
      splitWsAux (c :: acc) rest

/-- Python's `s.split()` with no separator. -/
def splitWs (s : List Char) : List (List Char) :=
  splitWsAux [] s

/-- A cell value of the loaded spreadsheet: a string, or a non-string value
(an integer) that `str(...)` renders to its decimal form. -/
inductive PyVal where
  | s (v : List Char)
  | i (n : Int)
  deriving DecidableEq

/-- Python's `str(...)` applied to a cell value. -/
def pyStr : PyVal → List Char
  | .s v => v
  | .i n => (toString n).toList

/-- Python's `d.get(k, dflt)` on a string-to-string mapping, modelled as an
association list (keys are unique in the JSON mapping files). -/
def dictGet (d : List (List Char × List Char)) (k : List Char)
    (dflt : List Char) : List Char :=
  match d.find? (fun p => p.fst == k) with
  | some p => p.snd
  | none => dflt

/-- The sentinel `'Unknown'` used for series codes absent from the mapping. -/
def unknownTok : List Char := ['U', 'n', 'k', 'n', 'o', 'w', 'n']

/-- `get_zone` from the notebook:
`series = str(serie).split()`,
`zones = [series_to_zona.get(s, 'Unknown') for s in series]`,
`return ' '.join(set(zones))`.  Python's `set` keeps each distinct element
once, in an order the language does not specify; it is modelled by
`List.dedup`, one concrete choice of such an order. -/
def get_zone (serie : PyVal) (series_to_zona : List (List Char × List Char)) :
    List Char :=
  let series := splitWs (pyStr serie)
  let zones := series.map (fun s => dictGet series_to_zona s unknownTok)
  List.intercalate [' '] zones.dedup

/-- One loaded spreadsheet row.  The loader reads the fixed column range
`A:H` with a fixed header row, so the schema is fixed; the fields are the
notebook's columns.  `partido` holds the `CONVOCATORIA` cell before the
rename (the rename only changes the column label, never a value). -/
structure Row where
  partido : List Char
  depto : List Char
  circuito : List Char
  series : PyVal
  escrutinio : List Char
  hoja : List Char
  cnt_votos : List Char
  acto : List Char
  deriving DecidableEq

/-- A loaded table: its rows plus whether the `ACTO` column is present in
its schema (`'ACTO' in df.columns`).  The `acto` cells of the rows are
rendered into an artifact only when `hasActo` is true. -/
structure Table where
  hasActo : Bool
  rows : List Row
  deriving DecidableEq

/-- A row of the final artifact: the row after filter/clean plus the added
`ZONA` column. -/
structure FinalRow where
  row : Row
  zona : List Char
  deriving DecidableEq

/-- The table written as the final artifact. -/
structure FinalTable where
  hasActo : Bool
  rows : List FinalRow
  deriving DecidableEq

/-- The pipeline checkpoints whose CSV artifacts `process_odd_data`
writes. -/
inductive Stage where
  | filtered
  | cleaned
  | no_acto
  | final
  deriving DecidableEq

/-- The content written at a checkpoint. -/
inductive Artifact where
  | mid (t : Table)
  | fin (t : FinalTable)
  deriving DecidableEq

/-- How a run of `process_odd_data` ends: the early `return` after the
`combined_data is None` check, the uncaught exception from opening a
missing mapping file, or normal completion. -/
inductive Outcome where
  | noData
  | missingMapping
  | ok
  deriving DecidableEq

/-- The observable effects of one run: the artifacts written, in order, and
how the run ended. -/
structure RunResult where
  written : List (Stage × Artifact)
  outcome : Outcome
  deriving DecidableEq

/-- `pd.concat(all_data, ignore_index=True)`: rows in file-encounter order
then row order within each file; the concatenated schema has `ACTO` when
any input does. -/
def concatTables (ts : List Table) : Table :=
  { hasActo := ts.any Table.hasActo
    rows := (ts.map Table.rows).flatten }

/-- `load_odd_data` from the notebook.  Each element of `files` is the
outcome of one `pd.read_excel` call on an `.xlsx` file of the folder, in
encounter order: `some t` when the file parsed to table `t`, `none` when it
raised and was skipped by the `except` branch.  The result is
`pd.concat(all_data, ignore_index=True) if all_data else None`. -/
def load_odd_data (files : List (Option Table)) : Option Table :=
  let all_data := files.filterMap id
  if all_data.isEmpty then none else some (concatTables all_data)

/-- The error messages printed by `load_odd_data`'s `except` branch: one
per file that failed to parse. -/
def reportedParseFailures (files : List (Option Table)) : Nat :=
  files.countP Option.isNone

/-- `combined_data[combined_data['DEPTO'] == department].copy()`: keep the
rows whose `DEPTO` cell equals the department exactly. -/
def filterDept (department : List Char) (t : Table) : Table :=
  { t with rows := t.rows.filter (fun r => r.depto == department) }

/-- The clean step: rename `CONVOCATORIA` to `PARTIDO` (label only) and
apply `clean_party_name` to every `PARTIDO` cell. -/
def cleanStage (t : Table) : Table :=
  { t with rows := t.rows.map (fun r => { r with partido := clean_party_name r.partido }) }

/-- `df.drop(columns=['ACTO'])`: remove the `ACTO` column from the
schema. -/
def dropActo (t : Table) : Table :=
  { t with hasActo := false }

/-- `df['ZONA'] = df['SERIES'].apply(lambda x: get_zone(x, series_to_zona))`:
add the `ZONA` column, computed per row from that row's `SERIES` cell. -/
def addZona (series_to_zona : List (List Char × List Char)) (t : Table) :
    FinalTable :=
  { hasActo := t.hasActo
    rows := t.rows.map (fun r => { row := r, zona := get_zone r.series series_to_zona }) }

/-- `process_odd_data` from the notebook.  `files` stands for the parse
outcomes of the input folder's `.xlsx` files and `mapping` for the attempt
to open and load `mapping_<department>.json`: `none` when the file is
missing or unreadable (the `open` raises and the run dies there), `some m`
when it loads to the mapping `m`.  The result records the artifacts written
(`to_csv` calls reached, in order) and how the run ended. -/
def process_odd_data (department : List Char) (files : List (Option Table))
    (mapping : Option (List (List Char × List Char))) : RunResult :=
  match load_odd_data files with
  | none => { written := [], outcome := .noData }
  | some combined_data =>
    let department_odd_data := filterDept department combined_data
    let w1 : List (Stage × Artifact) := [(.filtered, .mid department_odd_data)]
    let cleanedT := cleanStage department_odd_data
    let w2 := w1 ++ [(.cleaned, .mid cleanedT)]
    let step3 : Table × List (Stage × Artifact) :=
      if cleanedT.hasActo then
        let dropped := dropActo cleanedT
        (dropped, w2 ++ [(.no_acto, .mid dropped)])
      else
        (cleanedT, w2)
    match mapping with
    | none => { written := step3.2, outcome := .missingMapping }
    | some series_to_zona =>
      let finalT := addZona series_to_zona step3.1
      { written := step3.2 ++ [(.final, .fin finalT)], outcome := .ok }

/-- A table that parsed successfully but contains zero rows: an input
spreadsheet with the header rows present and no data rows below them. -/
def emptyTbl : Table := { hasActo := false, rows := [] }

/-- The final table produced by a run that reaches the enrichment stage:
the combined table filtered to the department, party names cleaned, the
`ACTO` column dropped when present, and the `ZONA` column added. -/
def finalArtifact (d : List Char) (m : List (List Char × List Char))
    (combined : Table) : FinalTable :=
  let cleanedT := cleanStage (filterDept d combined)
  addZona m (if cleanedT.hasActo then dropActo cleanedT else cleanedT)

/-- One concrete row in the shape of the notebook's own sample output,
used to instantiate theorems with hypotheses. -/
def sampleRow : Row :=
  { partido := "Frente_Amplio_-_Lista_711".toList
    depto := "Canelones".toList
    circuito := "4".toList
    series := .s "CAA".toList
    escrutinio := "Departamental".toList
    hoja := "1326".toList
    cnt_votos := "1".toList
    acto := [] }

/-- A one-row table holding `sampleRow`. -/
def sampleTbl : Table := { hasActo := false, rows := [sampleRow] }

/-- The one-entry mapping sending series code CAA to zone Canelones. -/
def sampleMapping : List (List Char × List Char) :=
  [("CAA".toList, "Canelones".toList)]

/-! ### Lemmas about the string scanners -/

/-- `pySplitGo` never returns the empty list: every branch of the scanner
produces at least one piece. -/
theorem pySplitGo_ne_nil (sep : List Char) (fuel : Nat) (s : List Char) :
    pySplitGo sep fuel s ≠ [] := by
  cases fuel with
  | zero => cases s <;> simp [pySplitGo]
  | succ n =>
    cases s with
    | nil => simp [pySplitGo]
    | cons c rest =>
      unfold pySplitGo
      cases hb : begins sep (c :: rest)
      · cases hp : pySplitGo sep n rest <;> simp [hb, hp]
      · simp [hb]

/-- With enough fuel, the first piece of `pySplitGo` is the part of the
string before the first occurrence of the separator. -/
theorem pySplitGo_headD (sep : List Char) :
    ∀ (fuel : Nat) (s : List Char), s.length ≤ fuel →
      (pySplitGo sep fuel s).headD [] = takeBefore sep s := by
  intro fuel
  induction fuel with
  | zero =>
    intro s hs
    cases s with
    | nil => rfl
    | cons c rest => simp at hs
  | succ n ih =>
    intro s hs
    cases s with
    | nil => rfl
    | cons c rest =>
      simp only [List.length_cons, Nat.succ_le_succ_iff] at hs
      unfold pySplitGo takeBefore
      cases hb : begins sep (c :: rest)
      · have hrest := ih rest hs
        cases hp : pySplitGo sep n rest with
        | nil => exact absurd hp (pySplitGo_ne_nil sep n rest)
        | cons p ps =>
          rw [hp] at hrest
          simp [hb, hp, ← hrest]
      · simp [hb]

/-- With enough fuel, replacing the single character `'_'` by `' '` is the
pointwise substitution `underscoreToSpace`. -/
theorem replGo_underscore :
    ∀ (fuel : Nat) (s : List Char), s.length ≤ fuel →
      replGo ['_'] [' '] fuel s = s.map underscoreToSpace := by
  intro fuel
  induction fuel with
  | zero =>
    intro s hs
    cases s with
    | nil => rfl
    | cons c rest => simp at hs
  | succ n ih =>
    intro s hs
    cases s with
    | nil => rfl
    | cons c rest =>
      simp only [List.length_cons, Nat.succ_le_succ_iff] at hs
      by_cases h : c = '_'
      · subst h
        simp [replGo, begins, underscoreToSpace, ih rest hs]
      · have hb : ('_' == c) = false := by
          simp [Ne.symm h]
        simp [replGo, begins, hb, underscoreToSpace, h, ih rest hs]

/-- A string containing no occurrence of `old` is left unchanged by the
replacement scanner, whatever the fuel. -/
theorem replGo_of_not_hasOcc (old new : List Char) :
    ∀ (fuel : Nat) (s : List Char), hasOcc old s = false →
      replGo old new fuel s = s := by
  intro fuel
  induction fuel with
  | zero =>
    intro s _
    cases s <;> rfl
  | succ n ih =>
    intro s h
    cases s with
    | nil => rfl
    | cons c rest =>
      unfold hasOcc at h
      simp only [Bool.or_eq_false_iff] at h
      unfold replGo
      simp [h.1, ih rest h.2]

/-- A string containing no occurrence of `sep` is kept whole by
`takeBefore`. -/
theorem takeBefore_of_not_hasOcc (sep : List Char) :
    ∀ (s : List Char), hasOcc sep s = false → takeBefore sep s = s := by
  intro s
  induction s with
  | nil => intro _; rfl
  | cons c rest ih =>
    intro h
    unfold hasOcc at h
    simp only [Bool.or_eq_false_iff] at h
    unfold takeBefore
    simp [h.1, ih h.2]

/-- A string made only of whitespace splits into no pieces. -/
theorem splitWsAux_all_space :
    ∀ (s : List Char), (∀ c ∈ s, pyIsSpace c = true) → splitWsAux [] s = [] := by
  intro s
  induction s with
  | nil => intro _; rfl
  | cons c rest ih =>
    intro h
    have hc := h c (List.mem_cons_self c rest)
    unfold splitWsAux
    simp [hc, ih (fun d hd => h d (List.mem_cons_of_mem c hd))]

/-- A string containing neither the delimiter, the suffix token, nor an
underscore passes through `clean_party_name` unchanged. -/
theorem clean_party_name_fixes (s : List Char) (h1 : hasOcc delim s = false)
    (h2 : hasOcc oddTok s = false) (h3 : hasOcc ['_'] s = false) :
    clean_party_name s = s := by
  simp only [clean_party_name, pySplit, replAll]
  rw [pySplitGo_headD delim s.length s (Nat.le_refl _),
    takeBefore_of_not_hasOcc delim s h1,
    replGo_of_not_hasOcc ['_'] [' '] s.length s h3,
    replGo_of_not_hasOcc oddTok [] s.length s h2]

/-! ### Claim theorems -/

/-- C1: party-name normalization takes the portion before the first
`'_-_'` (the whole string when the delimiter is absent), turns every
underscore into a space, then removes the occurrences of `' O.D.D.'`
(Python's `replace`, a single left-to-right pass); in particular it maps
"Frente_Amplio_-_Lista_711" to "Frente Amplio" and
"Partido Nacional O.D.D." to "Partido Nacional". -/
theorem clean_party_name_matches_spec :
    (∀ s, clean_party_name s = specNormalize s)
    ∧ clean_party_name "Frente_Amplio_-_Lista_711".toList = "Frente Amplio".toList
    ∧ clean_party_name "Partido Nacional O.D.D.".toList = "Partido Nacional".toList := by
  refine ⟨fun s => ?_, by decide, by decide⟩
  simp only [clean_party_name, specNormalize, pySplit, replAll]
  rw [pySplitGo_headD delim s.length s (Nat.le_refl _),
    replGo_underscore (takeBefore delim s).length (takeBefore delim s) (Nat.le_refl _),
    List.length_map]

/-- C4 (as stated, refuted): normalization applied twice can differ from
normalization applied once even on a string containing neither the
delimiter `'_-_'` nor the suffix token `' O.D.D.'`.  On
`"_O.D_O.D.D..D."` the underscore substitution creates the string
`" O.D O.D.D..D."`; the single-pass removal of `' O.D.D.'` then splices
its flanks into a fresh `" O.D.D."`, which a second application removes. -/
theorem clean_party_name_idem_cex :
    hasOcc delim "_O.D_O.D.D..D.".toList = false
    ∧ hasOcc oddTok "_O.D_O.D.D..D.".toList = false
    ∧ clean_party_name (clean_party_name "_O.D_O.D.D..D.".toList) ≠
        clean_party_name "_O.D_O.D.D..D.".toList := by
  refine ⟨by decide, by decide, by decide⟩

/-- C4 (amended): party-name normalization is idempotent on any string
containing neither the delimiter `'_-_'`, nor the suffix token
`' O.D.D.'`, nor the underscore character; such a string is already a
fixed point of the normalization. -/
theorem clean_party_name_idem_clean (s : List Char) (h1 : hasOcc delim s = false)
    (h2 : hasOcc oddTok s = false) (h3 : hasOcc ['_'] s = false) :
    clean_party_name (clean_party_name s) = clean_party_name s := by
  rw [clean_party_name_fixes s h1 h2 h3]
  exact clean_party_name_fixes s h1 h2 h3

theorem clean_party_name_idem_clean_witness :
    clean_party_name (clean_party_name "Frente Amplio".toList) =
      clean_party_name "Frente Amplio".toList :=
  clean_party_name_idem_clean "Frente Amplio".toList (by decide) (by decide) (by decide)

/-- C2: zone resolution splits the series string on whitespace, maps each
code through the mapping with `'Unknown'` for absent codes, collapses the
mapped names into a duplicate-free collection (Python's `set`, whose order
the language does not fix), and joins its members with single spaces; on
series "CAA CAB" with both codes mapped to "Canelones" the duplicates
collapse to "Canelones". -/
theorem get_zone_set_join_spec :
    (∀ serie m, ∃ l : List (List Char),
        l.Nodup
        ∧ (∀ z, z ∈ l ↔ z ∈ (splitWs (pyStr serie)).map (fun s => dictGet m s unknownTok))
        ∧ get_zone serie m = List.intercalate [' '] l)
    ∧ get_zone (.s "CAA CAB".toList)
        [("CAA".toList, "Canelones".toList), ("CAB".toList, "Canelones".toList)] =
        "Canelones".toList := by
  refine ⟨fun serie m => ?_, by decide⟩
  exact ⟨((splitWs (pyStr serie)).map (fun s => dictGet m s unknownTok)).dedup,
    List.nodup_dedup _, fun z => List.mem_dedup, rfl⟩

/-- C10: zone resolution coerces the series cell to its string rendering
before splitting, so a numeric series value is looked up by that rendering;
and when the string form is empty or whitespace-only the code list is
empty, so the `ZONA` value is the empty string, not "Unknown" and not an
error. -/
theorem get_zone_str_coercion :
    (∀ v m, get_zone v m = get_zone (.s (pyStr v)) m)
    ∧ (∀ n : Int, pyStr (.i n) = (toString n).toList)
    ∧ (∀ w m, (∀ c ∈ w, pyIsSpace c = true) → get_zone (.s w) m = []) := by
  refine ⟨fun v m => rfl, fun n => rfl, fun w m h => ?_⟩
  have h0 : splitWs w = [] := splitWsAux_all_space w h
  simp [get_zone, pyStr, h0, List.intercalate]

theorem get_zone_str_coercion_witness :
    get_zone (.s "  ".toList) [] = []
    ∧ get_zone (.i 42) [] = get_zone (.s (pyStr (.i 42))) [] :=
  ⟨get_zone_str_coercion.2.2 "  ".toList [] (by decide),
    get_zone_str_coercion.1 (.i 42) []⟩

/-- Counting occurrences in a filtered list: an element keeps its original
multiplicity when it passes the predicate and vanishes otherwise. -/
theorem count_filter_eq {α : Type} [DecidableEq α] (p : α → Bool) (a : α) :
    ∀ l : List α, (l.filter p).count a = if p a then l.count a else 0 := by
  intro l
  induction l with
  | nil => simp
  | cons b l ih =>
    by_cases hb : b = a
    · subst hb
      by_cases hp : p b <;> simp [List.filter_cons, hp, List.count_cons, ih]
    · by_cases hp : p b <;>
        simp [List.filter_cons, hp, List.count_cons, Ne.symm hb, ih]

/-- C3: filtering by a department name keeps exactly the sub-sequence of
rows whose department field equals the name (case-sensitive, exact), with
every retained row's field values unchanged (the retained rows are the very
same `Row` values, with their original multiplicities); an empty result is
a valid value, not an error. -/
theorem filterDept_exact_subsequence (d : List Char) (t : Table) :
    (filterDept d t).rows.Sublist t.rows
    ∧ (∀ r : Row, r ∈ (filterDept d t).rows ↔ r ∈ t.rows ∧ r.depto = d)
    ∧ (∀ r : Row, (filterDept d t).rows.count r =
        if r.depto = d then t.rows.count r else 0) := by
  refine ⟨List.filter_sublist t.rows, fun r => ?_, fun r => ?_⟩
  · simp [filterDept, List.mem_filter]
  · simp only [filterDept]
    rw [count_filter_eq]
    by_cases h : r.depto = d <;> simp [h]

/-- C5 (as stated, refuted): zero rows yielded by the input files does not
by itself halt the pipeline.  With a single input file that parses to a
zero-row table, `all_data` is non-empty, so `combined_data` is a table
rather than `None`: the run reaches the filter stage, writes artifacts and
completes normally. -/
theorem process_empty_rows_proceeds_cex :
    emptyTbl.rows = []
    ∧ ([some emptyTbl] : List (Option Table)).filterMap id = [emptyTbl]
    ∧ (process_odd_data "Canelones".toList [some emptyTbl] (some [])).outcome = Outcome.ok
    ∧ (process_odd_data "Canelones".toList [some emptyTbl] (some [])).written ≠ [] := by
  refine ⟨rfl, by decide, by decide, by decide⟩

/-- C5 (amended): if zero input files parse successfully (in particular,
if the input folder is empty), the pipeline halts before the filter stage,
reports this to the caller, and writes zero output files. -/
theorem process_no_parsed_files_halts (d : List Char) (files : List (Option Table))
    (mapping : Option (List (List Char × List Char)))
    (h : files.filterMap id = []) :
    process_odd_data d files mapping = { written := [], outcome := .noData } := by
  have hl : load_odd_data files = none := by
    simp [load_odd_data, h]
  simp [process_odd_data, hl]

theorem process_no_parsed_files_halts_witness :
    process_odd_data "Canelones".toList [none] none =
      { written := [], outcome := Outcome.noData } :=
  process_no_parsed_files_halts "Canelones".toList [none] none (by decide)

/-- C6: when the department's mapping file is missing or unreadable the run
dies before the zone-enrichment stage: the outcome is the missing-mapping
failure, no final artifact is among the written files, and the artifacts
written before the failure are exactly the ones a successful run would have
written up to that point (they remain on disk unchanged). -/
theorem process_missing_mapping_halts (d : List Char) (files : List (Option Table))
    (combined : Table) (h : load_odd_data files = some combined) :
    (process_odd_data d files none).outcome = .missingMapping
    ∧ (∀ sa ∈ (process_odd_data d files none).written, sa.1 ≠ Stage.final)
    ∧ ∀ m, (process_odd_data d files (some m)).written.take
          (process_odd_data d files none).written.length =
        (process_odd_data d files none).written := by
  simp only [process_odd_data, h]
  by_cases hA : (cleanStage (filterDept d combined)).hasActo
  · refine ⟨by simp [hA], ?_, fun m => by simp [hA]⟩
    intro sa hsa
    simp only [hA, if_true, List.mem_append, List.mem_cons,
      List.not_mem_nil, or_false] at hsa
    rcases hsa with (h1 | h1) | h1 <;> subst h1 <;> simp
  · refine ⟨by simp [hA], ?_, fun m => by simp [hA]⟩
    intro sa hsa
    simp only [hA, if_false, List.mem_append, List.mem_cons,
      List.not_mem_nil, or_false, Bool.false_eq_true] at hsa
    rcases hsa with h1 | h1 <;> subst h1 <;> simp

theorem process_missing_mapping_halts_witness :
    (process_odd_data "Canelones".toList [some emptyTbl] none).outcome =
      Outcome.missingMapping :=
  (process_missing_mapping_halts "Canelones".toList [some emptyTbl] emptyTbl
    (by decide)).1

/-- C7: a file that fails to parse is reported (one error message printed
for it), its contribution is excluded, and the loader still returns the
concatenation of all successfully parsed files' tables in file-encounter
order then row order within each file; a single bad file never aborts the
load when any other file parses. -/
theorem load_skips_bad_file (pre post : List (Option Table)) (t : Table)
    (h : some t ∈ pre ++ post) :
    load_odd_data (pre ++ none :: post) = load_odd_data (pre ++ post)
    ∧ (load_odd_data (pre ++ none :: post)).isSome = true
    ∧ reportedParseFailures (pre ++ none :: post) =
        reportedParseFailures (pre ++ post) + 1
    ∧ ∃ T, load_odd_data (pre ++ none :: post) = some T
        ∧ T.rows = (((pre ++ post).filterMap id).map Table.rows).flatten := by
  have hswap : (pre ++ none :: post).filterMap id = (pre ++ post).filterMap id := by
    simp [List.filterMap_append, List.filterMap_cons]
  have hmem : t ∈ (pre ++ post).filterMap id :=
    List.mem_filterMap.mpr ⟨some t, h, rfl⟩
  have hne : ((pre ++ post).filterMap id).isEmpty = false := by
    cases hl : (pre ++ post).filterMap id with
    | nil => rw [hl] at hmem; exact absurd hmem (List.not_mem_nil t)
    | cons u us => rfl
  refine ⟨?_, ?_, ?_, ?_⟩
  · simp only [load_odd_data, hswap]
  · simp only [load_odd_data, hswap, hne, Bool.false_eq_true, if_false, Option.isSome_some]
  · simp only [reportedParseFailures, List.countP_append, List.countP_cons]
    simp [Option.isNone]
    omega
  · refine ⟨concatTables ((pre ++ post).filterMap id), ?_, rfl⟩
    simp only [load_odd_data, hswap, hne, Bool.false_eq_true, if_false]

theorem load_skips_bad_file_witness :
    load_odd_data [some emptyTbl, none] = load_odd_data [some emptyTbl]
    ∧ (load_odd_data [some emptyTbl, none]).isSome = true :=
  ⟨(load_skips_bad_file [some emptyTbl] [] emptyTbl (by decide)).1,
    (load_skips_bad_file [some emptyTbl] [] emptyTbl (by decide)).2.1⟩

/-- C8: every row that survives the department filter reaches the final
artifact with all fields other than the renamed/normalized party field, the
dropped `ACTO` column and the added `ZONA` field carrying their original
values unchanged: the final rows correspond one-to-one, in order, to the
filtered rows, agreeing on every passthrough field, with the party field
normalized and the zone field computed from the row's series field. -/
theorem final_rows_frame (d : List Char) (files : List (Option Table))
    (m : List (List Char × List Char)) (combined : Table)
    (h : load_odd_data files = some combined) :
    (process_odd_data d files (some m)).written.getLast? =
      some (Stage.final, Artifact.fin (finalArtifact d m combined))
    ∧ List.Forall₂ (fun (r : Row) (fr : FinalRow) =>
        fr.row.depto = r.depto ∧ fr.row.circuito = r.circuito
        ∧ fr.row.series = r.series ∧ fr.row.escrutinio = r.escrutinio
        ∧ fr.row.hoja = r.hoja ∧ fr.row.cnt_votos = r.cnt_votos
        ∧ fr.row.partido = clean_party_name r.partido
        ∧ fr.zona = get_zone r.series m)
      (filterDept d combined).rows (finalArtifact d m combined).rows := by
  constructor
  · simp only [process_odd_data, h]
    by_cases hA : (cleanStage (filterDept d combined)).hasActo <;>
      simp [hA, finalArtifact, List.getLast?_concat]
  · have hrows : (finalArtifact d m combined).rows =
        (filterDept d combined).rows.map (fun r =>
          { row := { r with partido := clean_party_name r.partido }
            zona := get_zone r.series m }) := by
      by_cases hA : (filterDept d combined).hasActo = true <;>
        simp [finalArtifact, hA, addZona, dropActo, cleanStage, List.map_map, Function.comp]
    rw [hrows]
    refine List.forall₂_map_right_iff.mpr (List.forall₂_same.mpr ?_)
    intro r _
    exact ⟨rfl, rfl, rfl, rfl, rfl, rfl, rfl, rfl⟩

/-- C9: splitting any string on `'_-_'` yields a non-empty list, so taking
its first element is always in bounds; `clean_party_name` is total and in
particular maps the empty string to the empty string. -/
theorem clean_party_name_total :
    (∀ s, pySplit delim s ≠ [])
    ∧ (∀ s, ∃ p ps, pySplit delim s = p :: ps
        ∧ clean_party_name s = replAll oddTok [] (replAll ['_'] [' '] p))
    ∧ clean_party_name [] = [] := by
  refine ⟨fun s => pySplitGo_ne_nil delim s.length s, fun s => ?_, by decide⟩
  cases hp : pySplit delim s with
  | nil => exact absurd hp (pySplitGo_ne_nil delim s.length s)
  | cons p ps => exact ⟨p, ps, rfl, by simp [clean_party_name, hp]⟩

theorem final_rows_frame_witness :
    (process_odd_data "Canelones".toList [some sampleTbl]
        (some sampleMapping)).written.getLast? =
      some (Stage.final, Artifact.fin (finalArtifact "Canelones".toList
        sampleMapping sampleTbl))
    ∧ List.Forall₂ (fun (r : Row) (fr : FinalRow) =>
        fr.row.depto = r.depto ∧ fr.row.circuito = r.circuito
        ∧ fr.row.series = r.series ∧ fr.row.escrutinio = r.escrutinio
        ∧ fr.row.hoja = r.hoja ∧ fr.row.cnt_votos = r.cnt_votos
        ∧ fr.row.partido = clean_party_name r.partido
        ∧ fr.zona = get_zone r.series sampleMapping)
      (filterDept "Canelones".toList sampleTbl).rows
      (finalArtifact "Canelones".toList sampleMapping sampleTbl).rows :=
  final_rows_frame "Canelones".toList [some sampleTbl] sampleMapping sampleTbl
    (by decide)
